import Mathlib

/-!
Shallow embedding of the retrieval-augmented generation example programs of
this repository (`retrieval-augmention/example6` and the prompt-engineering
examples): text chunking, cosine similarity over embedding vectors, linear
similarity search, completion post-processing, batched embedding, and the
chat-turn orchestrator loop.  Go strings are modelled as lists of
characters, Go `float64` values as exact rationals with the final
square-root quotient taken in the reals, and the two remote services as
oracle functions.
-/

/-- Character list of a string literal; Go strings are modelled as `List Char`. -/
def goStr (s : String) : List Char := s.data

/-- Accumulator loop splitting on a single space character, mirroring Go
`strings.Split(text, " ")`: `cur` holds the characters of the current token
in reverse. -/
def splitSpAux : List Char → List Char → List (List Char)
  | [], cur => [cur.reverse]
  | c :: rest, cur =>
      if c = ' ' then cur.reverse :: splitSpAux rest []
      else splitSpAux rest (c :: cur)

/-- Go `strings.Split(text, " ")`. -/
def splitTokens (text : List Char) : List (List Char) := splitSpAux text []

/-- Go `strings.Join(tokens, " ")`. -/
def joinSp (tokens : List (List Char)) : List Char :=
  List.intercalate [' '] tokens

/-- Loop of `characterTextSplitter`: starting from token index `i`, emit the
window `tokens[i:end]` (with `end = i + step` clipped to the token count)
joined with single spaces, then advance `i` by `step`.  The Go source sets
`step = splitSize - overlapSize` both as the slice width and as the
advance; a strictly positive step is required for the loop to terminate. -/
def chunkLoop (tokens : List (List Char)) (step : Nat) (hstep : 0 < step) (i : Nat) :
    List (List Char) :=
  if h : i < tokens.length then
    joinSp ((tokens.drop i).take step) :: chunkLoop tokens step hstep (i + step)
  else []
termination_by tokens.length - i
decreasing_by simp_wf; omega

/-- Go `characterTextSplitter(text, splitSize, overlapSize)` under the
precondition `overlapSize < splitSize` (the source does not guard the
degenerate non-advancing configuration).  Note that the Go loop body slices
`tokens[i : i+splitSize-overlapSize]`, so every emitted chunk holds at most
`splitSize - overlapSize` tokens. -/
def characterTextSplitter (text : List Char) (splitSize overlapSize : Nat)
    (h : overlapSize < splitSize) : List (List Char) :=
  chunkLoop (splitTokens text) (splitSize - overlapSize) (by omega) 0

/-- Fuel-indexed version of the `characterTextSplitter` loop, one unit of
fuel per iteration; `none` when the fuel runs out with the loop still
running. -/
def chunkLoopF : Nat → List (List Char) → Nat → Nat → Option (List (List Char))
  | 0, tokens, _, i => if i < tokens.length then none else some []
  | fuel + 1, tokens, step, i =>
      if i < tokens.length then
        (chunkLoopF fuel tokens step (i + step)).map
          (joinSp ((tokens.drop i).take step) :: ·)
      else some []

/-- With a strictly positive step, `tokens.length - i` units of fuel are
enough: the fuelled loop finishes and agrees with the recursive loop. -/
theorem chunkLoopF_eq (tokens : List (List Char)) (step : Nat) (hstep : 0 < step) :
    ∀ fuel i, tokens.length ≤ i + fuel →
      chunkLoopF fuel tokens step i = some (chunkLoop tokens step hstep i) := by
  intro fuel
  induction fuel with
  | zero =>
      intro i hi
      rw [chunkLoop]
      rw [dif_neg (by omega)]
      simp [chunkLoopF]
      omega
  | succ n ih =>
      intro i hi
      by_cases h : i < tokens.length
      · rw [chunkLoop, dif_pos h]
        simp only [chunkLoopF, if_pos h]
        rw [ih (i + step) (by omega)]
        rfl
      · rw [chunkLoop, dif_neg h]
        simp only [chunkLoopF, if_neg h]

/-- Concrete evaluation of the chunker on the spec scenario input: shared by
the claims about the chunker's window size. -/
theorem characterTextSplitter_abcdef :
    characterTextSplitter (goStr "a b c d e f") 3 1 (by norm_num) =
      [goStr "a b", goStr "c d", goStr "e f"] := by
  have h := chunkLoopF_eq (splitTokens (goStr "a b c d e f")) 2 (by norm_num) 6 0 (by decide)
  have h2 : chunkLoopF 6 (splitTokens (goStr "a b c d e f")) 2 0 =
      some [goStr "a b", goStr "c d", goStr "e f"] := by decide
  have h3 := Option.some.inj ((h.symm).trans h2)
  exact h3

/-- Iteration count of the `cosineSimilarity` loop:
`if length_a > length_b then length_a else length_b`. -/
def simCount (a b : List ℚ) : Nat :=
  if b.length < a.length then a.length else b.length

/-- Entry `k` of a vector, zero beyond its length (the zero-padding view). -/
def padAt (v : List ℚ) (k : Nat) : ℚ := v.getD k 0

/-- One iteration of the `cosineSimilarity` accumulation loop at index `k`
on the accumulator `(sumA, s1, s2)`, mirroring the three branches of the Go
loop body: an index past `a` contributes only to `s2`, an index past `b`
only to `s1`, any other index to all three sums. -/
def cosineStep (a b : List ℚ) (acc : ℚ × ℚ × ℚ) (k : Nat) : ℚ × ℚ × ℚ :=
  if a.length ≤ k then (acc.1, acc.2.1, acc.2.2 + padAt b k ^ 2)
  else if b.length ≤ k then (acc.1, acc.2.1 + padAt a k ^ 2, acc.2.2)
  else (acc.1 + padAt a k * padAt b k, acc.2.1 + padAt a k ^ 2, acc.2.2 + padAt b k ^ 2)

/-- The accumulated `(sumA, s1, s2)` of the `cosineSimilarity` loop. -/
def cosineSums (a b : List ℚ) : ℚ × ℚ × ℚ :=
  (List.range (simCount a b)).foldl (cosineStep a b) (0, 0, 0)

/-- Go `cosineSimilarity(a, b)`: an error when either accumulated squared
norm is zero, otherwise `sumA / (math.Sqrt(s1) * math.Sqrt(s2))`.  The
`float64` sums are modelled as exact rationals, the final quotient as a
real number. -/
noncomputable def cosineSimilarity (a b : List ℚ) : Except String ℝ :=
  let s := cosineSums a b
  if s.2.1 = 0 ∨ s.2.2 = 0 then Except.error "vectors should not be null (all zeros)"
  else Except.ok ((s.1 : ℝ) / (Real.sqrt (s.2.1 : ℝ) * Real.sqrt (s.2.2 : ℝ)))

/-- Dot product of `a` and `b` zero-padded over the first `n` indices. -/
def dotPadded (a b : List ℚ) (n : Nat) : ℚ :=
  ∑ k in Finset.range n, padAt a k * padAt b k

/-- Squared Euclidean norm of the zero-padding of `v` over `n` indices. -/
def norm2Padded (v : List ℚ) (n : Nat) : ℚ :=
  ∑ k in Finset.range n, padAt v k ^ 2

theorem simCount_eq_max (a b : List ℚ) : simCount a b = max a.length b.length := by
  unfold simCount
  rcases le_or_lt a.length b.length with h | h
  · rw [if_neg (by omega), Nat.max_eq_right h]
  · rw [if_pos h, Nat.max_eq_left (le_of_lt h)]

theorem padAt_of_le (v : List ℚ) (k : Nat) (h : v.length ≤ k) : padAt v k = 0 := by
  unfold padAt
  exact List.getD_eq_default v 0 h

/-- The loop of `cosineSimilarity` accumulates exactly the three padded
sums. -/
theorem cosineLoop_eq (a b : List ℚ) (n : Nat) :
    (List.range n).foldl (cosineStep a b) (0, 0, 0) =
      (dotPadded a b n, norm2Padded a n, norm2Padded b n) := by
  induction n with
  | zero => simp [dotPadded, norm2Padded]
  | succ n ih =>
      rw [List.range_succ, List.foldl_append, ih]
      simp only [List.foldl_cons, List.foldl_nil]
      unfold cosineStep
      simp only [dotPadded, norm2Padded, Finset.sum_range_succ]
      by_cases ha : a.length ≤ n
      · rw [if_pos ha, padAt_of_le a n ha]
        simp
      · rw [if_neg ha]
        by_cases hb : b.length ≤ n
        · rw [if_pos hb, padAt_of_le b n hb]
          simp
        · rw [if_neg hb]

/-- The accumulated sums are the padded dot product and squared norms over
`max (len a) (len b)` indices. -/
theorem cosineSums_eq (a b : List ℚ) :
    cosineSums a b =
      (dotPadded a b (max a.length b.length),
       norm2Padded a (max a.length b.length),
       norm2Padded b (max a.length b.length)) := by
  unfold cosineSums
  rw [cosineLoop_eq, simCount_eq_max]

/-- The real value `sumA / (sqrt s1 * sqrt s2)` computed from the loop sums
(the value `cosineSimilarity` returns when neither norm vanishes). -/
noncomputable def cosineValue (a b : List ℚ) : ℝ :=
  (((cosineSums a b).1 : ℚ) : ℝ) /
    (Real.sqrt (((cosineSums a b).2.1 : ℚ) : ℝ) * Real.sqrt (((cosineSums a b).2.2 : ℚ) : ℝ))

/-- When neither accumulated squared norm is zero, `cosineSimilarity`
succeeds with `cosineValue`. -/
theorem cosineSimilarity_ok (a b : List ℚ)
    (h1 : (cosineSums a b).2.1 ≠ 0) (h2 : (cosineSums a b).2.2 ≠ 0) :
    cosineSimilarity a b = Except.ok (cosineValue a b) := by
  unfold cosineSimilarity cosineValue
  rw [if_neg (by push_neg; exact ⟨h1, h2⟩)]

/-- A chunk paired with its embedding vector (Go `VectorizedChunk`). -/
structure VectorizedChunk where
  chunk : List Char
  vector : List ℚ

/-- Placeholder entry used as the `List.getD` default when indexing a
corpus. -/
def dummyChunk : VectorizedChunk := ⟨[], []⟩

open Classical in
/-- Loop of Go `search`: walk the corpus tracking the best chunk and the
running maximal similarity, adopting an entry exactly when its similarity
strictly exceeds the current maximum; a similarity error aborts the whole
search. -/
noncomputable def searchLoop (embedding : List ℚ) :
    List VectorizedChunk → List Char → ℝ → Except String (List Char)
  | [], outChunk, _ => Except.ok outChunk
  | c :: rest, outChunk, maxSimilarity =>
      match cosineSimilarity c.vector embedding with
      | Except.error e => Except.error e
      | Except.ok distance =>
          if maxSimilarity < distance then searchLoop embedding rest c.chunk distance
          else searchLoop embedding rest outChunk maxSimilarity

/-- Go `search(chunks, embedding)`: the best chunk starts out empty and the
best score starts at `0.0`. -/
noncomputable def search (chunks : List VectorizedChunk) (embedding : List ℚ) :
    Except String (List Char) :=
  searchLoop embedding chunks [] 0

/-- A vector all of whose entries are zero has zero padded squared norm. -/
theorem norm2Padded_eq_zero (v : List ℚ) (hv : ∀ x ∈ v, x = 0) (n : Nat) :
    norm2Padded v n = 0 := by
  unfold norm2Padded
  apply Finset.sum_eq_zero
  intro k _
  have hz : padAt v k = 0 := by
    unfold padAt
    rcases lt_or_le k v.length with hk | hk
    · rw [List.getD_eq_getElem v 0 hk]
      exact hv _ (List.getElem_mem hk)
    · exact List.getD_eq_default v 0 hk
  rw [hz]
  ring

/-- Concrete loop-sum evaluation used in witnesses. -/
theorem cosineSums_one_one : cosineSums [(1:ℚ)] [(1:ℚ)] = (1, 1, 1) := by
  simp [cosineSums, simCount, cosineStep, padAt, List.range_succ, List.range_zero,
    List.foldl_cons, List.foldl_nil]

/-- Concrete loop-sum evaluation used in witnesses. -/
theorem cosineSums_neg_one : cosineSums [(-1:ℚ)] [(1:ℚ)] = (-1, 1, 1) := by
  simp [cosineSums, simCount, cosineStep, padAt, List.range_succ, List.range_zero,
    List.foldl_cons, List.foldl_nil]

/-- Cosine of the one-entry vector `[1]` with itself is `1`. -/
theorem cosineValue_one_one : cosineValue [(1:ℚ)] [(1:ℚ)] = 1 := by
  unfold cosineValue
  rw [cosineSums_one_one]
  show ((1:ℚ):ℝ) / (Real.sqrt ((1:ℚ):ℝ) * Real.sqrt ((1:ℚ):ℝ)) = 1
  push_cast
  rw [Real.sqrt_one]
  norm_num

/-- Cosine of `[-1]` against `[1]` is `-1`. -/
theorem cosineValue_neg_one : cosineValue [(-1:ℚ)] [(1:ℚ)] = -1 := by
  unfold cosineValue
  rw [cosineSums_neg_one]
  show ((-1:ℚ):ℝ) / (Real.sqrt ((1:ℚ):ℝ) * Real.sqrt ((1:ℚ):ℝ)) = -1
  push_cast
  rw [Real.sqrt_one]
  norm_num

/-- C2: for vectors with nonzero accumulated squared norm on each side,
`cosineSimilarity a b` succeeds with the quotient of the zero-padded dot
product by the product of the square roots of the zero-padded squared
norms, the padding running to `max (len a) (len b)`; unequal lengths are
never an error. -/
theorem cosineSimilarity_formula (a b : List ℚ)
    (h1 : norm2Padded a (max a.length b.length) ≠ 0)
    (h2 : norm2Padded b (max a.length b.length) ≠ 0) :
    cosineSimilarity a b = Except.ok
      ((dotPadded a b (max a.length b.length) : ℝ) /
        (Real.sqrt ((norm2Padded a (max a.length b.length) : ℚ) : ℝ) *
         Real.sqrt ((norm2Padded b (max a.length b.length) : ℚ) : ℝ))) := by
  have hs := cosineSums_eq a b
  rw [cosineSimilarity_ok a b (by rw [hs]; exact h1) (by rw [hs]; exact h2)]
  unfold cosineValue
  rw [hs]

/-- Witness for `cosineSimilarity_formula` at `a = b = [1]`. -/
theorem cosineSimilarity_formula_witness :
    norm2Padded [(1:ℚ)] (max [(1:ℚ)].length [(1:ℚ)].length) ≠ 0 ∧
    cosineSimilarity [(1:ℚ)] [(1:ℚ)] = Except.ok
      ((dotPadded [(1:ℚ)] [(1:ℚ)] (max [(1:ℚ)].length [(1:ℚ)].length) : ℝ) /
        (Real.sqrt ((norm2Padded [(1:ℚ)] (max [(1:ℚ)].length [(1:ℚ)].length) : ℚ) : ℝ) *
         Real.sqrt ((norm2Padded [(1:ℚ)] (max [(1:ℚ)].length [(1:ℚ)].length) : ℚ) : ℝ))) :=
  ⟨by simp [norm2Padded, padAt],
   cosineSimilarity_formula [(1:ℚ)] [(1:ℚ)] (by simp [norm2Padded, padAt])
     (by simp [norm2Padded, padAt])⟩

/-- C7: `cosineSimilarity` fails with the degenerate-vector error exactly
when one of the two accumulated squared norms is zero; in particular it
fails whenever one argument is all zeros or empty. -/
theorem cosineSimilarity_degenerate :
    (∀ a b : List ℚ,
       cosineSimilarity a b = Except.error "vectors should not be null (all zeros)" ↔
         (norm2Padded a (max a.length b.length) = 0 ∨
          norm2Padded b (max a.length b.length) = 0)) ∧
    (∀ a b : List ℚ, (∀ x ∈ a, x = 0) →
       cosineSimilarity a b = Except.error "vectors should not be null (all zeros)") ∧
    (∀ a b : List ℚ, (∀ x ∈ b, x = 0) →
       cosineSimilarity a b = Except.error "vectors should not be null (all zeros)") ∧
    (∀ b : List ℚ,
       cosineSimilarity [] b = Except.error "vectors should not be null (all zeros)") := by
  have hiff : ∀ a b : List ℚ,
      cosineSimilarity a b = Except.error "vectors should not be null (all zeros)" ↔
        (norm2Padded a (max a.length b.length) = 0 ∨
         norm2Padded b (max a.length b.length) = 0) := by
    intro a b
    unfold cosineSimilarity
    rw [cosineSums_eq]
    by_cases hc : norm2Padded a (max a.length b.length) = 0 ∨
        norm2Padded b (max a.length b.length) = 0
    · rw [if_pos hc]
      simp [hc]
    · rw [if_neg hc]
      simp [hc]
  refine ⟨hiff, ?_, ?_, ?_⟩
  · intro a b ha
    exact (hiff a b).2 (Or.inl (norm2Padded_eq_zero a ha _))
  · intro a b hb
    exact (hiff a b).2 (Or.inr (norm2Padded_eq_zero b hb _))
  · intro b
    exact (hiff [] b).2 (Or.inl (norm2Padded_eq_zero [] (by simp) _))

/-- Witness for `cosineSimilarity_degenerate` on the all-zero vector
`[0, 0]`. -/
theorem cosineSimilarity_degenerate_witness :
    (∀ x ∈ [(0:ℚ), 0], x = 0) ∧
    cosineSimilarity [(0:ℚ), 0] [(1:ℚ)] =
      Except.error "vectors should not be null (all zeros)" :=
  ⟨by intro x hx; rcases List.mem_cons.1 hx with rfl | hx2; · rfl
      · rcases List.mem_cons.1 hx2 with rfl | hx3; · rfl
        · exact absurd hx3 (List.not_mem_nil x),
   cosineSimilarity_degenerate.2.1 [(0:ℚ), 0] [(1:ℚ)]
     (by intro x hx; rcases List.mem_cons.1 hx with rfl | hx2; · rfl
         · rcases List.mem_cons.1 hx2 with rfl | hx3; · rfl
           · exact absurd hx3 (List.not_mem_nil x))⟩

/-- The similarity of an entry against a query is defined: neither
accumulated squared norm vanishes. -/
def simDefined (c : VectorizedChunk) (q : List ℚ) : Prop :=
  (cosineSums c.vector q).2.1 ≠ 0 ∧ (cosineSums c.vector q).2.2 ≠ 0

/-- When every remaining similarity is at most the running maximum, the
loop keeps the current best chunk. -/
theorem searchLoop_all_le (q : List ℚ) (l : List VectorizedChunk) :
    ∀ (out : List Char) (m : ℝ),
      (∀ c ∈ l, simDefined c q) →
      (∀ c ∈ l, cosineValue c.vector q ≤ m) →
      searchLoop q l out m = Except.ok out := by
  induction l with
  | nil => intro out m _ _; rfl
  | cons c rest ih =>
      intro out m hok hle
      have hd := hok c (List.mem_cons_self c rest)
      simp only [searchLoop, cosineSimilarity_ok c.vector q hd.1 hd.2]
      rw [if_neg (not_lt.2 (hle c (List.mem_cons_self c rest)))]
      exact ih out m (fun x hx => hok x (List.mem_cons_of_mem c hx))
        (fun x hx => hle x (List.mem_cons_of_mem c hx))

/-- When entry `i` is the first entry attaining the strict maximum of the
remaining similarities and beats the running maximum, the loop returns its
chunk. -/
theorem searchLoop_argmax (q : List ℚ) (l : List VectorizedChunk) :
    ∀ (i : Nat) (out : List Char) (m : ℝ),
      (∀ c ∈ l, simDefined c q) →
      i < l.length →
      m < cosineValue (l.getD i dummyChunk).vector q →
      (∀ j, j < i → cosineValue (l.getD j dummyChunk).vector q <
        cosineValue (l.getD i dummyChunk).vector q) →
      (∀ j, i < j → j < l.length → cosineValue (l.getD j dummyChunk).vector q ≤
        cosineValue (l.getD i dummyChunk).vector q) →
      searchLoop q l out m = Except.ok (l.getD i dummyChunk).chunk := by
  induction l with
  | nil => intro i out m _ hi; exact absurd hi (by simp)
  | cons c rest ih =>
      intro i out m hok hi hgt hbefore hafter
      have hd := hok c (List.mem_cons_self c rest)
      simp only [searchLoop, cosineSimilarity_ok c.vector q hd.1 hd.2]
      match i with
      | 0 =>
          simp only [List.getD_cons_zero] at hgt hafter ⊢
          rw [if_pos hgt]
          apply searchLoop_all_le q rest c.chunk (cosineValue c.vector q)
            (fun x hx => hok x (List.mem_cons_of_mem c hx))
          intro x hx
          rcases List.mem_iff_getElem.1 hx with ⟨j, hj, rfl⟩
          have := hafter (j + 1) (Nat.succ_pos j) (by simpa using Nat.succ_lt_succ hj)
          simpa [List.getD, List.getElem?_eq_getElem hj] using this
      | k + 1 =>
          simp only [List.getD_cons_succ] at hgt hbefore hafter ⊢
          have hs : cosineValue c.vector q <
              cosineValue (rest.getD k dummyChunk).vector q := by
            simpa using hbefore 0 (Nat.succ_pos k)
          by_cases hm : m < cosineValue c.vector q
          · rw [if_pos hm]
            apply ih k c.chunk (cosineValue c.vector q)
              (fun x hx => hok x (List.mem_cons_of_mem c hx))
              (by simpa using Nat.lt_of_succ_lt_succ hi) hs
            · intro j hj
              simpa using hbefore (j + 1) (Nat.succ_lt_succ hj)
            · intro j hj hjl
              simpa using hafter (j + 1) (Nat.succ_lt_succ hj)
                (by simpa using Nat.succ_lt_succ hjl)
          · rw [if_neg hm]
            apply ih k out m
              (fun x hx => hok x (List.mem_cons_of_mem c hx))
              (by simpa using Nat.lt_of_succ_lt_succ hi) hgt
            · intro j hj
              simpa using hbefore (j + 1) (Nat.succ_lt_succ hj)
            · intro j hj hjl
              simpa using hafter (j + 1) (Nat.succ_lt_succ hj)
                (by simpa using Nat.succ_lt_succ hjl)


/-- C3: with every per-entry similarity defined, `search` returns the chunk
of the first-seen entry attaining the maximal similarity provided that
maximum is strictly positive (the running maximum starts at `0.0` and ties
keep the earlier entry); an empty corpus, or a corpus all of whose
similarities are at most zero, yields the empty string without error. -/
theorem search_returns_first_argmax :
    (∀ (chunks : List VectorizedChunk) (q : List ℚ),
       (∀ c ∈ chunks, simDefined c q) →
       ∀ i, i < chunks.length →
         0 < cosineValue (chunks.getD i dummyChunk).vector q →
         (∀ j, j < i → cosineValue (chunks.getD j dummyChunk).vector q <
           cosineValue (chunks.getD i dummyChunk).vector q) →
         (∀ j, i < j → j < chunks.length →
           cosineValue (chunks.getD j dummyChunk).vector q ≤
             cosineValue (chunks.getD i dummyChunk).vector q) →
         search chunks q = Except.ok (chunks.getD i dummyChunk).chunk) ∧
    (∀ q : List ℚ, search [] q = Except.ok (goStr "")) ∧
    (∀ (chunks : List VectorizedChunk) (q : List ℚ),
       (∀ c ∈ chunks, simDefined c q) →
       (∀ c ∈ chunks, cosineValue c.vector q ≤ 0) →
       search chunks q = Except.ok (goStr "")) := by
  refine ⟨?_, ?_, ?_⟩
  · intro chunks q hok i hi hpos hbefore hafter
    exact searchLoop_argmax q chunks i [] 0 hok hi hpos hbefore hafter
  · intro q
    rfl
  · intro chunks q hok hle
    exact searchLoop_all_le q chunks [] 0 hok hle

/-- Witness for `search_returns_first_argmax`: of two entries with
similarities `-1` and `1`, the unique positive one is returned even though
it comes second. -/
theorem search_returns_first_argmax_witness :
    (0:ℝ) < cosineValue [(1:ℚ)] [(1:ℚ)] ∧
    search [⟨goStr "A", [(-1:ℚ)]⟩, ⟨goStr "B", [(1:ℚ)]⟩] [(1:ℚ)] =
      Except.ok (goStr "B") := by
  have hpos : (0:ℝ) < cosineValue [(1:ℚ)] [(1:ℚ)] := by
    rw [cosineValue_one_one]; norm_num
  refine ⟨hpos, ?_⟩
  have hok : ∀ c ∈ [(⟨goStr "A", [(-1:ℚ)]⟩ : VectorizedChunk), ⟨goStr "B", [(1:ℚ)]⟩],
      simDefined c [(1:ℚ)] := by
    intro c hc
    rcases List.mem_cons.1 hc with rfl | hc2
    · constructor
      · rw [cosineSums_neg_one]; norm_num
      · rw [cosineSums_neg_one]; norm_num
    · rcases List.mem_cons.1 hc2 with rfl | hc3
      · constructor
        · rw [cosineSums_one_one]; norm_num
        · rw [cosineSums_one_one]; norm_num
      · exact absurd hc3 (List.not_mem_nil c)
  have h := search_returns_first_argmax.1
    [⟨goStr "A", [(-1:ℚ)]⟩, ⟨goStr "B", [(1:ℚ)]⟩] [(1:ℚ)] hok 1 (by norm_num)
    (by
      show (0:ℝ) < cosineValue [(1:ℚ)] [(1:ℚ)]
      exact hpos)
    (by
      intro j hj
      interval_cases j
      show cosineValue [(-1:ℚ)] [(1:ℚ)] < cosineValue [(1:ℚ)] [(1:ℚ)]
      rw [cosineValue_neg_one, cosineValue_one_one]
      norm_num)
    (by
      intro j hj hjl
      simp only [List.length_cons, List.length_nil] at hjl
      omega)
  exact h

/-- First index at which `s` occurs as a contiguous substring of `t`
(Go `strings.Index`); `none` when absent (Go returns `-1`). -/
def indexOfSub : List Char → List Char → Option Nat
  | t, s =>
    if s.isPrefixOf t then some 0
    else
      match t with
      | [] => none
      | _ :: rest => (indexOfSub rest s).map (· + 1)

/-- One pass of the truncation loop body, Go
`if strings.Contains(completion, s) { completion = completion[:strings.Index(completion, s)] }`
(`strings.Contains` holds exactly when `strings.Index` is nonnegative). -/
def truncAt (completion s : List Char) : List Char :=
  match indexOfSub completion s with
  | some i => completion.take i
  | none => completion

/-- The truncation loop over the whole marker list, Go
`for _, s := range stop { ... }`. -/
def truncStop (stopList : List (List Char)) (completion : List Char) : List Char :=
  stopList.foldl truncAt completion

/-- Whitespace test modelling Go `unicode.IsSpace` on the ASCII range. -/
def isSpaceChar (c : Char) : Bool :=
  c == ' ' || c == '\t' || c == '\n' || c == '\r' || c == '\x0b' || c == '\x0c'

/-- Go `strings.TrimSpace`: drop leading and trailing whitespace. -/
def trimSpace (t : List Char) : List Char :=
  ((t.dropWhile isSpaceChar).reverse.dropWhile isSpaceChar).reverse

/-- The module-level `stop` marker list shared by the examples. -/
def stopMarkers : List (List Char) :=
  [goStr "#", goStr "import", goStr "Human", goStr "human", goStr "AI:"]

/-- Completion post-processing shared by `getRAGAnswer` and the
prompt-engineering example `main`: truncate on every stop marker in order,
then trim surrounding whitespace. -/
def postProcessCompletion (completion : List Char) : List Char :=
  trimSpace (truncStop stopMarkers completion)

/-- The single-truncation rule as claimed: truncate only at the first
marker (in list order) occurring anywhere in the text, then trim. -/
def singleTruncPost (stopList : List (List Char)) (completion : List Char) : List Char :=
  match stopList.find? (fun s => (indexOfSub completion s).isSome) with
  | some s => trimSpace (truncAt completion s)
  | none => trimSpace completion

/-- Iterated truncation, spelled as explicit recursion over the marker
list: each marker present in the current text truncates at its first
occurrence in the current text. -/
def iterTrunc : List (List Char) → List Char → List Char
  | [], t => t
  | s :: rest, t => iterTrunc rest (truncAt t s)

/-- The fold of the source loop is the iterated truncation. -/
theorem truncStop_eq_iterTrunc : ∀ (l : List (List Char)) (t : List Char),
    truncStop l t = iterTrunc l t := by
  intro l
  induction l with
  | nil => intro t; rfl
  | cons s rest ih =>
      intro t
      show rest.foldl truncAt (truncAt t s) = iterTrunc rest (truncAt t s)
      exact ih (truncAt t s)

/-- C4 counterexample: on `"abc Human def import xyz"` the code truncates
repeatedly — first at `"import"`, then at `"Human"` inside the shortened
text — yielding `"abc"`, whereas a single truncation at the first listed
marker found (`"import"`) would yield `"abc Human def"`. -/
theorem postProcess_not_single_truncation :
    postProcessCompletion (goStr "abc Human def import xyz") = goStr "abc" ∧
    singleTruncPost stopMarkers (goStr "abc Human def import xyz") =
      goStr "abc Human def" ∧
    goStr "abc" ≠ goStr "abc Human def" := by
  refine ⟨by decide, by decide, by decide⟩

/-- C4 (amended): the post-processing truncates iteratively, once per
marker in list order against the current text, then trims; on the spec
scenario input the result is unchanged by the amendment. -/
theorem postProcess_iterated :
    (∀ completion : List Char,
       postProcessCompletion completion = trimSpace (iterTrunc stopMarkers completion)) ∧
    postProcessCompletion (goStr "The answer is 42 #extra stuff") =
      goStr "The answer is 42" := by
  constructor
  · intro completion
    unfold postProcessCompletion
    rw [truncStop_eq_iterTrunc]
  · decide

/-- First-choice text of a completion response, Go
`response.Choices[0].Text`; `none` models the index-out-of-range panic on
an empty choice list. -/
def firstChoiceText (choices : List (List Char)) : Option (List Char) :=
  choices.head?

/-- The answer `getChatAnswer` computes from the completion response: Go
`return response.Choices[0].Text, nil` — the raw first-choice text. -/
def getChatAnswerText (choices : List (List Char)) : Option (List Char) :=
  firstChoiceText choices

/-- The answer `getRAGAnswer` computes from its completion response: the
first-choice text after stop-marker truncation and trimming. -/
def getRAGAnswerText (choices : List (List Char)) : Option (List Char) :=
  (firstChoiceText choices).map postProcessCompletion

/-- C6 counterexample: on a response whose first choice is
`"hi # there"`, the chat path returns it verbatim while the post-processing
used by the retrieval path would produce `"hi"`. -/
theorem getChatAnswer_not_postprocessed :
    getChatAnswerText [goStr "hi # there"] = some (goStr "hi # there") ∧
    (firstChoiceText [goStr "hi # there"]).map postProcessCompletion =
      some (goStr "hi") ∧
    some (goStr "hi # there") ≠ some (goStr "hi") := by
  refine ⟨rfl, by decide, by decide⟩

/-- C6 (amended): the chat path returns the completion's first choice text
unmodified; only the retrieval path applies the stop-marker truncation and
whitespace trim. -/
theorem getChatAnswer_raw (choices : List (List Char)) (t : List Char)
    (h : firstChoiceText choices = some t) :
    getChatAnswerText choices = some t ∧
    getRAGAnswerText choices = some (postProcessCompletion t) := by
  constructor
  · exact h
  · unfold getRAGAnswerText
    rw [h]
    rfl

/-- Witness for `getChatAnswer_raw` on a concrete one-choice response. -/
theorem getChatAnswer_raw_witness :
    firstChoiceText [goStr "ok # z"] = some (goStr "ok # z") ∧
    getChatAnswerText [goStr "ok # z"] = some (goStr "ok # z") ∧
    getRAGAnswerText [goStr "ok # z"] = some (goStr "ok") := by
  have h := getChatAnswer_raw [goStr "ok # z"] (goStr "ok # z") rfl
  refine ⟨rfl, h.1, ?_⟩
  rw [h.2]
  decide

/-- Remote embedding call, abstracted: the service embeds each submitted
text independently and returns one vector per text in submission order
(`res.Embeddings` parallel to `Texts`). -/
def embedCall (f : List Char → List ℚ) (texts : List (List Char)) : List (List ℚ) :=
  texts.map f

/-- Batch loop of `main`: take the pending chunks twenty at a time, call the
embedding service on the group, and pair each chunk of the group with the
group's returned vector of equal index. -/
def embedBatches (f : List Char → List ℚ) (chunks : List (List Char)) :
    List VectorizedChunk :=
  if h : chunks = [] then []
  else
    ((chunks.take 20).zip (embedCall f (chunks.take 20))).map (fun p => ⟨p.1, p.2⟩) ++
      embedBatches f (chunks.drop 20)
termination_by chunks.length
decreasing_by
  simp_wf
  have hpos : 0 < chunks.length := List.length_pos.2 h
  omega

/-- The embedding phase of `main`: batched when more than twenty chunks
are present, a single call otherwise. -/
def vectorizeChunks (f : List Char → List ℚ) (chunks : List (List Char)) :
    List VectorizedChunk :=
  if 20 < chunks.length then embedBatches f chunks
  else (chunks.zip (embedCall f chunks)).map (fun p => ⟨p.1, p.2⟩)

/-- Pairing a list with its pointwise embedding is a pointwise map. -/
theorem zip_map_mk (f : List Char → List ℚ) : ∀ l : List (List Char),
    ((l.zip (l.map f)).map fun p => (⟨p.1, p.2⟩ : VectorizedChunk)) =
      l.map (fun c => ⟨c, f c⟩) := by
  intro l
  induction l with
  | nil => rfl
  | cons c cs ih => simp only [List.map_cons, List.zip_cons_cons, ih]

/-- The batch loop produces the pointwise pairing of every chunk with its
own embedding. -/
theorem embedBatches_eq (f : List Char → List ℚ) : ∀ (n : Nat) (chunks : List (List Char)),
    chunks.length ≤ n →
      embedBatches f chunks = chunks.map (fun c => ⟨c, f c⟩) := by
  intro n
  induction n with
  | zero =>
      intro chunks hn
      have hnil : chunks = [] := List.eq_nil_of_length_eq_zero (by omega)
      subst hnil
      rw [embedBatches]
      simp
  | succ n ih =>
      intro chunks hn
      by_cases hc : chunks = []
      · subst hc
        rw [embedBatches]
        simp
      · rw [embedBatches, dif_neg hc]
        rw [ih (chunks.drop 20)
          (by simp only [List.length_drop]; have := List.length_pos.2 hc; omega)]
        unfold embedCall
        rw [zip_map_mk]
        rw [← List.map_append, List.take_append_drop]

/-- C9: the batched embedding phase pairs the i-th chunk with the i-th
returned vector and its output equals the single un-batched embedding of
the whole sequence. -/
theorem vectorizeChunks_eq_unbatched (f : List Char → List ℚ)
    (chunks : List (List Char)) :
    vectorizeChunks f chunks =
      ((chunks.zip (embedCall f chunks)).map fun p => (⟨p.1, p.2⟩ : VectorizedChunk)) ∧
    vectorizeChunks f chunks = chunks.map (fun c => ⟨c, f c⟩) := by
  have hmap : vectorizeChunks f chunks = chunks.map (fun c => ⟨c, f c⟩) := by
    unfold vectorizeChunks
    by_cases h : 20 < chunks.length
    · rw [if_pos h]
      exact embedBatches_eq f chunks.length chunks le_rfl
    · rw [if_neg h]
      unfold embedCall
      exact zip_map_mk f chunks
  refine ⟨?_, hmap⟩
  rw [hmap]
  unfold embedCall
  exact (zip_map_mk f chunks).symm

/-- A chat turn held in the running conversation log (Go `chatContext`). -/
structure chatContext where
  You : List Char
  AI : List Char

/-- One user turn of the orchestrator loop, recorded as the input together
with the responses of the completion calls it may involve: the classifier
verdict text and the two candidate answers. -/
structure Turn where
  input : List Char
  routeText : List Char
  ragAnswer : List Char
  chatAnswer : List Char

/-- The completion printed and logged for a turn: Go
`switch response.Choices[0].Text` routes `"yes"` to the retrieval path and
anything else to the chat path. -/
def turnAnswer (t : Turn) : List Char :=
  if t.routeText = goStr "yes" then t.ragAnswer else t.chatAnswer

/-- The chat-log update ending a successfully answered turn:
`convo = append(convo, chatContext{You: input, AI: completion})`. -/
def stepTurn (convo : List chatContext) (t : Turn) : List chatContext :=
  convo ++ [⟨t.input, turnAnswer t⟩]

/-- The orchestrator loop over a finite run of successfully answered
turns. -/
def runTurns (convo : List chatContext) (ts : List Turn) : List chatContext :=
  ts.foldl stepTurn convo

/-- C10: after a run of successfully answered turns the chat log holds, in
order and regardless of the route each turn took, one `(input, answer)`
pair per turn appended to the prior log; its length grows by exactly the
number of turns. -/
theorem runTurns_appends :
    (∀ (convo : List chatContext) (ts : List Turn),
       runTurns convo ts = convo ++ ts.map (fun t => ⟨t.input, turnAnswer t⟩)) ∧
    (∀ (convo : List chatContext) (ts : List Turn),
       (runTurns convo ts).length = convo.length + ts.length) := by
  have h : ∀ (ts : List Turn) (convo : List chatContext),
      runTurns convo ts = convo ++ ts.map (fun t => ⟨t.input, turnAnswer t⟩) := by
    intro ts
    induction ts with
    | nil => intro convo; simp [runTurns]
    | cons t rest ih =>
        intro convo
        show runTurns (stepTurn convo t) rest = _
        rw [ih]
        simp [stepTurn]
  refine ⟨fun convo ts => h ts convo, fun convo ts => ?_⟩
  rw [h ts convo]
  simp

/-- C1 (evaluation at the failing input): chunking `"a b c d e f"` with
`splitSize = 3, overlapSize = 1` yields `["a b", "c d", "e f"]` — windows
of `splitSize - overlapSize` tokens with no overlap — not the documented
`["a b c", "c d e", "e f"]`. -/
theorem characterTextSplitter_window_bug :
    characterTextSplitter (goStr "a b c d e f") 3 1 (by norm_num) =
      [goStr "a b", goStr "c d", goStr "e f"] ∧
    characterTextSplitter (goStr "a b c d e f") 3 1 (by norm_num) ≠
      [goStr "a b c", goStr "c d e", goStr "e f"] := by
  refine ⟨characterTextSplitter_abcdef, ?_⟩
  intro hEq
  exact absurd (characterTextSplitter_abcdef.symm.trans hEq) (by decide)

/-- Token-level reconstruction procedure of the claimed round-trip
property: keep the first chunk's tokens and drop the first `overlap` tokens
of every later chunk, concatenating the remainders in order. -/
def removeOverlapRejoin (overlap : Nat) (chunks : List (List Char)) :
    List (List Char) :=
  match chunks with
  | [] => []
  | c :: rest => splitTokens c ++ (rest.map fun ch => (splitTokens ch).drop overlap).flatten

/-- C5 (evaluation at the failing input): because the produced chunks carry
no overlapping prefix, dropping `overlap` tokens from each later chunk
loses tokens — the reconstruction gives `[a, b, d, f]`, not the token
sequence of `"a b c d e f"`. -/
theorem removeOverlap_rejoin_fails :
    removeOverlapRejoin 1
        (characterTextSplitter (goStr "a b c d e f") 3 1 (by norm_num)) =
      [goStr "a", goStr "b", goStr "d", goStr "f"] ∧
    removeOverlapRejoin 1
        (characterTextSplitter (goStr "a b c d e f") 3 1 (by norm_num)) ≠
      splitTokens (goStr "a b c d e f") := by
  have h1 : removeOverlapRejoin 1
      (characterTextSplitter (goStr "a b c d e f") 3 1 (by norm_num)) =
      [goStr "a", goStr "b", goStr "d", goStr "f"] :=
    (congrArg (removeOverlapRejoin 1) characterTextSplitter_abcdef).trans (by decide)
  refine ⟨h1, ?_⟩
  intro hEq
  exact absurd (h1.symm.trans hEq) (by decide)

/-- C8: with `overlapSize < splitSize` the chunker loop halts within
`|tokens|` iterations — the fuelled loop finishes on any such fuel budget
and returns the finite chunk sequence. -/
theorem characterTextSplitter_terminates (text : List Char)
    (splitSize overlapSize : Nat) (h : overlapSize < splitSize) (fuel : Nat)
    (hfuel : (splitTokens text).length ≤ fuel) :
    chunkLoopF fuel (splitTokens text) (splitSize - overlapSize) 0 =
      some (characterTextSplitter text splitSize overlapSize h) := by
  unfold characterTextSplitter
  exact chunkLoopF_eq (splitTokens text) (splitSize - overlapSize) (by omega) fuel 0
    (by omega)

/-- Witness for `characterTextSplitter_terminates` at the spec scenario
input with fuel equal to the token count. -/
theorem characterTextSplitter_terminates_witness :
    (1:Nat) < 3 ∧ (splitTokens (goStr "a b c d e f")).length ≤ 6 ∧
    chunkLoopF 6 (splitTokens (goStr "a b c d e f")) (3 - 1) 0 =
      some (characterTextSplitter (goStr "a b c d e f") 3 1 (by norm_num)) :=
  ⟨by norm_num, by decide,
   characterTextSplitter_terminates (goStr "a b c d e f") 3 1 (by norm_num) 6 (by decide)⟩
